import Mathlib

/-!
Verification development for the `dtb2csv` converter (dtb2x repository,
`dtb2csv.pyw`, version 0.2.0).  The Python module parses a tab-indented
"DTB" text format describing Groups, Teams and Players with six regular
expressions (strict and loose variants), maintains the current Group/Team
ancestry in a `DtbReader`, and serializes accepted entities to CSV rows.

The embedding below mirrors the source:
* `Re`/`mrun` is a backtracking regular-expression matcher with Python
  `re` semantics restricted to the constructs the six patterns use
  (literal characters, greedy `*`/`+` over character classes, greedy
  optional subpatterns, named capture groups).  Alternatives are listed
  in Python's backtracking priority order and `fullmatch` picks the first
  alternative that consumes the entire input, which is exactly what
  `re.fullmatch` returns.  Python's `\d` is modelled as `Char.isDigit`
  and `.` as any character other than a newline.
* The six pattern constants translate the regex literals of `DtbReader`.
* `DtbReader.read` translates the classification cascade, returning the
  raised error (with the offending line, as the source's message carries
  it) together with the post-call reader state.
* `ConverterCsv.convert` translates the conversion loop: header row
  first, one row per accepted line, stop at the first raised error.
  `Caps`/row cells use `Option String` because Python's `match.group`
  yields `None` for an unmatched group; Python's `csv.writer` renders
  `None` as an empty cell, modelled by `renderRow`.
-/

namespace Dtb2Csv

/-- Names of the capture groups appearing in the six DTB regexes. -/
inductive GTag where
  | name
  | note
  | registration_number
  | surname
  | date_of_birth
deriving DecidableEq, Repr

/-- Captured fields of a match, one slot per named group; `none` models
Python's `None` for a group that did not participate in the match. -/
structure Caps where
  name : Option String := none
  note : Option String := none
  registration_number : Option String := none
  surname : Option String := none
  date_of_birth : Option String := none
deriving DecidableEq, Repr

/-- Record a capture for the given group name. -/
def Caps.set (k : Caps) : GTag → String → Caps
  | .name, v => { k with name := some v }
  | .note, v => { k with note := some v }
  | .registration_number, v => { k with registration_number := some v }
  | .surname, v => { k with surname := some v }
  | .date_of_birth, v => { k with date_of_birth := some v }

/-- Read a capture slot by group name. -/
def Caps.get (k : Caps) : GTag → Option String
  | .name => k.name
  | .note => k.note
  | .registration_number => k.registration_number
  | .surname => k.surname
  | .date_of_birth => k.date_of_birth

/-- Regular expressions, restricted to the constructs used by the six DTB
patterns: literal characters, greedy `*` and `+` over a character class,
concatenation, greedy `?`, and named capture groups. -/
inductive Re where
  | char (c : Char)
  | star (p : Char → Bool)
  | plus (p : Char → Bool)
  | cat (a b : Re)
  | opt (a : Re)
  | group (t : GTag) (a : Re)

/-- All ways a greedy `p*` can split the input, as the list of remaining
suffixes in Python's backtracking priority order: maximal consumption
first, the empty match last. -/
def starRests (p : Char → Bool) : List Char → List (List Char)
  | [] => [[]]
  | c :: rest => if p c then starRests p rest ++ [c :: rest] else [c :: rest]

/-- Backtracking matcher: all partial matches of `r` against a prefix of
`s`, as (captures, remaining suffix) pairs in Python's backtracking
priority order (greedy quantifiers prefer longer matches, `?` prefers
presence).  `k` is the capture state accumulated so far; abandoned
branches do not leak captures, matching Python's restore-on-backtrack. -/
def mrun (r : Re) (k : Caps) (s : List Char) : List (Caps × List Char) :=
  match r with
  | .char c =>
      match s with
      | [] => []
      | a :: t => if a = c then [(k, t)] else []
  | .star p => (starRests p s).map (fun x => (k, x))
  | .plus p =>
      match s with
      | [] => []
      | a :: t => if p a then (starRests p t).map (fun x => (k, x)) else []
  | .cat a b => (mrun a k s).flatMap (fun x => mrun b x.1 x.2)
  | .opt a => mrun a k s ++ [(k, s)]
  | .group t a =>
      (mrun a k s).map
        (fun x => (Caps.set x.1 t (String.mk (s.take (s.length - x.2.length))), x.2))

/-- `re.fullmatch` on a character list: the captures of the first match,
in backtracking priority order, that consumes the whole input. -/
def fullmatchL (r : Re) (s : List Char) : Option Caps :=
  (((mrun r {} s).filter (fun x => x.2.isEmpty)).head?).map (fun x => x.1)

/-- `re.fullmatch` on a string. -/
def fullmatch (r : Re) (s : String) : Option Caps :=
  fullmatchL r s.data

/-- Character class `[^\t]` (anything but a tab). -/
def notTab (c : Char) : Bool := !(c == '\t')

/-- Python `.` without DOTALL: anything but a newline. -/
def dotAny (c : Char) : Bool := !(c == '\n')

/-- Character class `\d` (modelled as decimal digits). -/
def digitCh (c : Char) : Bool := c.isDigit

/-- Character class `[\d.]`. -/
def dobCh (c : Char) : Bool := c.isDigit || c == '.'

/-- Character class `[^ ,]`. -/
def surnameCh (c : Char) : Bool := !(c == ' ') && !(c == ',')

/-- Character class `[^,]`. -/
def nameCh (c : Char) : Bool := !(c == ',')

/-- Character class for a literal space under `+`. -/
def spaceCh (c : Char) : Bool := c == ' '

/-- The dash separator `- ` (strict) respectively `- ?` (loose). -/
def dashSep (strict : Bool) : Re :=
  if strict then .cat (.char '-') (.char ' ')
  else .cat (.char '-') (.opt (.char ' '))

/-- The comma separator `, ` (strict) respectively `,? ?` (loose),
used twice inside the player patterns. -/
def commaSep (strict : Bool) : Re :=
  if strict then .cat (.char ',') (.char ' ')
  else .cat (.opt (.char ',')) (.opt (.char ' '))

/-- Body shared by the group and team regexes:
`((?P<name>[^\t]*) )?- (?P<note>.+)?\n` in strict mode, with `- ` relaxed
to `- ?` in loose mode (`^`/`$` are redundant under `fullmatch`). -/
def GROUP_BODY (strict : Bool) : Re :=
  .cat (.opt (.cat (.group .name (.star notTab)) (.char ' ')))
    (.cat (dashSep strict)
      (.cat (.opt (.group .note (.plus dotAny))) (.char '\n')))

/-- `GROUP_RE_STRICT = ^((?P<name>[^\t]*) )?- (?P<note>.+)?\n$`. -/
def GROUP_RE_STRICT : Re := GROUP_BODY true

/-- `GROUP_RE_LOOSE = ^((?P<name>[^\t]*) )?- ?(?P<note>.+)?\n$`. -/
def GROUP_RE_LOOSE : Re := GROUP_BODY false

/-- `TEAM_RE_STRICT = ^\t((?P<name>[^\t]*) )?- (?P<note>.+)?\n$`. -/
def TEAM_RE_STRICT : Re := .cat (.char '\t') (GROUP_BODY true)

/-- `TEAM_RE_LOOSE = ^\t((?P<name>[^\t]*) )?- ?(?P<note>.+)?\n$`. -/
def TEAM_RE_LOOSE : Re := .cat (.char '\t') (GROUP_BODY false)

/-- Body of the player regexes:
`\t\t((?P<registration_number>\d*) )?- (?P<surname>[^ ,]+)? (?P<name>[^,]+)?, (?P<date_of_birth>[\d.]+)? +, (?P<note>.+)?\n`
in strict mode, with both `, ` separators relaxed to `,? ?` in loose mode. -/
def PLAYER_BODY (strict : Bool) : Re :=
  .cat (.char '\t')
    (.cat (.char '\t')
      (.cat (.opt (.cat (.group .registration_number (.star digitCh)) (.char ' ')))
        (.cat (.cat (.char '-') (.char ' '))
          (.cat (.opt (.group .surname (.plus surnameCh)))
            (.cat (.char ' ')
              (.cat (.opt (.group .name (.plus nameCh)))
                (.cat (commaSep strict)
                  (.cat (.opt (.group .date_of_birth (.plus dobCh)))
                    (.cat (.plus spaceCh)
                      (.cat (commaSep strict)
                        (.cat (.opt (.group .note (.plus dotAny)))
                          (.char '\n'))))))))))))

/-- `PLAYER_RE_STRICT`. -/
def PLAYER_RE_STRICT : Re := PLAYER_BODY true

/-- `PLAYER_RE_LOOSE`. -/
def PLAYER_RE_LOOSE : Re := PLAYER_BODY false

/-- The group regex selected by the mode, as `read` selects it. -/
def groupRe (strict : Bool) : Re :=
  if strict then GROUP_RE_STRICT else GROUP_RE_LOOSE

/-- The team regex selected by the mode. -/
def teamRe (strict : Bool) : Re :=
  if strict then TEAM_RE_STRICT else TEAM_RE_LOOSE

/-- The player regex selected by the mode. -/
def playerRe (strict : Bool) : Re :=
  if strict then PLAYER_RE_STRICT else PLAYER_RE_LOOSE

/-- `Group` record: top level entity of a DTB file. -/
structure Group where
  name : Option String
  note : Option String
deriving DecidableEq, Repr

/-- `Group.to_list`. -/
def Group.to_list (g : Group) : List (Option String) := [g.name, g.note]

/-- `Group.header`. -/
def Group.header : List String := ["Název, Oddíl", "Poznámka, Oddíl"]

/-- `Team` record: belongs to a single group. -/
structure Team where
  name : Option String
  note : Option String
  group : Group
deriving DecidableEq, Repr

/-- `Team.to_list`. -/
def Team.to_list (t : Team) : List (Option String) :=
  t.group.to_list ++ [t.name, t.note]

/-- `Team.header`. -/
def Team.header : List String := ["Název, Družstvo", "Poznámka, Družstvo"]

/-- `Player` record: belongs to a single team. -/
structure Player where
  registration_number : Option String
  name : Option String
  surname : Option String
  date_of_birth : Option String
  note : Option String
  team : Team
deriving DecidableEq, Repr

/-- `Player.to_list`: team row first, then the player's own fields with
`name` emitted before `surname`. -/
def Player.to_list (p : Player) : List (Option String) :=
  p.team.to_list ++
    [p.registration_number, p.name, p.surname, p.date_of_birth, p.note]

/-- `Player.header`. -/
def Player.header : List String :=
  ["Reg. číslo, Hráč", "Jméno, Hráč", "Příjmení, Hráč", "Datum nar., Hráč",
   "Poznámka, Hráč"]

/-- `DtbReader.InvalidDtbFileError`, split by the three message shapes the
source raises; each carries the offending line as the message does. -/
inductive InvalidDtbFileError where
  | TeamWithoutGroup (line : String)
  | PlayerWithoutTeam (line : String)
  | UnknownLineType (line : String)
deriving DecidableEq, Repr

/-- The value returned by a successful `DtbReader.read`. -/
inductive Entity where
  | group (g : Group)
  | team (t : Team)
  | player (p : Player)
deriving DecidableEq, Repr

/-- Dispatch of `entity.to_list()` over the three entity kinds. -/
def Entity.to_list : Entity → List (Option String)
  | .group g => g.to_list
  | .team t => t.to_list
  | .player p => p.to_list

/-- `DtbReader` state: the most recently read group and team. -/
structure DtbReader where
  current_group : Option Group
  current_team : Option Team
deriving DecidableEq, Repr

/-- `DtbReader.__init__`: both fields start unset. -/
def DtbReader.init : DtbReader := ⟨none, none⟩

/-- `DtbReader.read`: classify `line` with the mode's regexes in the
source's order (group, team, player), update the ancestry state, and
either return the constructed entity or raise.  The second component is
the reader state after the call (Python mutates `self` in place; every
`raise` in the source happens before any assignment, which the returned
state reflects path by path). -/
def DtbReader.read (self : DtbReader) (line : String) (strict : Bool) :
    Except InvalidDtbFileError Entity × DtbReader :=
  match fullmatch (groupRe strict) line with
  | some m =>
      let group : Group := ⟨m.name, m.note⟩
      (.ok (.group group), ⟨some group, none⟩)
  | none =>
    match fullmatch (teamRe strict) line with
    | some m =>
        match self.current_group with
        | none => (.error (.TeamWithoutGroup line), self)
        | some g =>
            let team : Team := ⟨m.name, m.note, g⟩
            (.ok (.team team), ⟨self.current_group, some team⟩)
    | none =>
      match fullmatch (playerRe strict) line with
      | some m =>
          match self.current_team with
          | none => (.error (.PlayerWithoutTeam line), self)
          | some t =>
              (.ok (.player ⟨m.registration_number, m.name, m.surname,
                m.date_of_birth, m.note, t⟩), self)
      | none => (.error (.UnknownLineType line), self)

/-- Rendering of one row by `csv.writer`: Python's `csv` module writes
`None` as an empty cell. -/
def renderRow (l : List (Option String)) : List String :=
  l.map (fun o => o.getD "")

/-- The fixed CSV header row written by `ConverterCsv.convert`. -/
def headerRow : List String := Group.header ++ Team.header ++ Player.header

/-- The conversion loop of `ConverterCsv.convert`: one `read` per input
line in order; on success append the entity's row, on the first raised
error stop with the rows written so far. -/
def convertLoop (reader : DtbReader) (lines : List String) (strict : Bool)
    (acc : List (List String)) : List (List String) × Option InvalidDtbFileError :=
  match lines with
  | [] => (acc, none)
  | l :: rest =>
      match reader.read l strict with
      | (.ok e, r) => convertLoop r rest strict (acc ++ [renderRow e.to_list])
      | (.error err, _) => (acc, some err)

/-- `ConverterCsv.convert`: fresh reader, header row first, then the
conversion loop.  Returns the rows written to the CSV output and the
raised error, if any. -/
def ConverterCsv.convert (dtb_input : List String) (strict : Bool) :
    List (List String) × Option InvalidDtbFileError :=
  convertLoop DtbReader.init dtb_input strict [headerRow]

/-- The reader state after one `read` call (exceptions included), used to
fold sequences of calls. -/
def stepRead (st : DtbReader) (lm : String × Bool) : DtbReader :=
  (st.read lm.1 lm.2).2

/-- Reader-state invariant: whenever a current team is set, a current
group is set as well. -/
def teamHasGroup (st : DtbReader) : Prop :=
  st.current_team.isSome → st.current_group.isSome

/-- All characters a subpattern can consume satisfy `q` (syntactic
over-approximation used for capture lemmas). -/
def BodySat (q : Char → Bool) : Re → Prop
  | .char c => q c = true
  | .star p => ∀ c, p c = true → q c = true
  | .plus p => ∀ c, p c = true → q c = true
  | .cat a b => BodySat q a ∧ BodySat q b
  | .opt a => BodySat q a
  | .group _ a => BodySat q a

/-- Every capture group of the pattern only consumes characters allowed
by the classifier `P` for its tag. -/
def GroupsSat (P : GTag → Char → Bool) : Re → Prop
  | .cat a b => GroupsSat P a ∧ GroupsSat P b
  | .opt a => GroupsSat P a
  | .group t a => BodySat (P t) a ∧ GroupsSat P a
  | _ => True

/-- All set capture slots satisfy the classifier `P`. -/
def CapsSat (P : GTag → Char → Bool) (k : Caps) : Prop :=
  ∀ t v, k.get t = some v → v.data.all (P t) = true

/-- Per-field character classes asserted for player captures:
registration numbers are digits, dates of birth are digits and dots,
surnames contain no space and no comma. -/
def playerFieldClass : GTag → Char → Bool
  | .registration_number => digitCh
  | .date_of_birth => dobCh
  | .surname => surnameCh
  | _ => fun _ => true

/-- `r` refines `r'`: any partial match of `r` leaving suffix `s'` can be
mirrored by a partial match of `r'` leaving the same suffix (captures may
differ).  Used to compare the strict and loose pattern variants. -/
def SubM (r r' : Re) : Prop :=
  ∀ (k : Caps) (s s' : List Char),
    (∃ x, (x, s') ∈ mrun r k s) → ∃ y, (y, s') ∈ mrun r' k s

/- ### Generic lemmas about the matcher -/

/-- Any suffix produced by the greedy star split is the input minus a
prefix of characters from the class. -/
theorem starRests_decomp (p : Char → Bool) :
    ∀ (s s' : List Char), s' ∈ starRests p s →
      ∃ pre, s = pre ++ s' ∧ pre.all p = true := by
  intro s
  induction s with
  | nil =>
    intro s' h
    simp only [starRests, List.mem_singleton] at h
    exact ⟨[], by simp [h]⟩
  | cons c rest ih =>
    intro s' h
    cases hp : p c with
    | true =>
      simp only [starRests, hp, if_true, List.mem_append, List.mem_singleton] at h
      rcases h with h | h
      · rcases ih s' h with ⟨pre, hpre, hall⟩
        exact ⟨c :: pre, by simp [hpre], by simp [hp, hall]⟩
      · exact ⟨[], by simp [h]⟩
    | false =>
      simp only [starRests, hp, Bool.false_eq_true, if_false, List.mem_singleton] at h
      exact ⟨[], by simp [h]⟩

/-- The suffixes a pattern can leave do not depend on the incoming
capture state. -/
theorem mrun_rest_indep {r : Re} :
    ∀ {k : Caps} (k' : Caps) {s s' : List Char} {x : Caps},
      (x, s') ∈ mrun r k s → ∃ y, (y, s') ∈ mrun r k' s := by
  induction r with
  | char c =>
    intro k k' s s' x h
    cases s with
    | nil => simp [mrun] at h
    | cons a t =>
      by_cases ha : a = c
      · simp only [mrun, ha, if_true, List.mem_singleton, Prod.mk.injEq] at h
        exact ⟨k', by simp [mrun, ha, h.2]⟩
      · simp [mrun, ha] at h
  | star p =>
    intro k k' s s' x h
    simp only [mrun, List.mem_map, Prod.mk.injEq] at h
    rcases h with ⟨a, ha, _, he2⟩
    exact ⟨k', by
      simp only [mrun, List.mem_map, Prod.mk.injEq]
      exact ⟨a, ha, trivial, he2⟩⟩
  | plus p =>
    intro k k' s s' x h
    cases s with
    | nil => simp [mrun] at h
    | cons a t =>
      by_cases hp : p a = true
      · simp only [mrun, hp, if_true, List.mem_map, Prod.mk.injEq] at h
        rcases h with ⟨b, hb, _, he2⟩
        exact ⟨k', by
          simp only [mrun, hp, if_true, List.mem_map, Prod.mk.injEq]
          exact ⟨b, hb, trivial, he2⟩⟩
      · simp [mrun, hp] at h
  | cat a b iha ihb =>
    intro k k' s s' x h
    simp only [mrun, List.mem_flatMap] at h ⊢
    rcases h with ⟨⟨z, s1⟩, hz, hx⟩
    rcases iha k' hz with ⟨y1, hy1⟩
    rcases ihb y1 hx with ⟨y2, hy2⟩
    exact ⟨y2, ⟨(y1, s1), hy1, hy2⟩⟩
  | opt a iha =>
    intro k k' s s' x h
    simp only [mrun, List.mem_append, List.mem_singleton, Prod.mk.injEq] at h ⊢
    rcases h with h | h
    · rcases iha k' h with ⟨y, hy⟩
      exact ⟨y, Or.inl hy⟩
    · exact ⟨k', Or.inr ⟨rfl, h.2⟩⟩
  | group t a iha =>
    intro k k' s s' x h
    simp only [mrun, List.mem_map, Prod.mk.injEq] at h ⊢
    rcases h with ⟨⟨z, s1⟩, hz, _, he2⟩
    rcases iha k' hz with ⟨y1, hy1⟩
    exact ⟨Caps.set y1 t (String.mk (s.take (s.length - s1.length))),
      ⟨(y1, s1), hy1, rfl, he2⟩⟩

/- ### Refinement lemmas between the strict and loose patterns -/

theorem subM_refl (r : Re) : SubM r r := fun _ _ _ h => h

theorem subM_char_opt (c : Char) : SubM (.char c) (.opt (.char c)) := by
  intro k s s' ⟨x, hx⟩
  exact ⟨x, by simp only [mrun, List.mem_append]; exact Or.inl hx⟩

theorem subM_cat {a a' b b' : Re} (ha : SubM a a') (hb : SubM b b') :
    SubM (.cat a b) (.cat a' b') := by
  intro k s s' ⟨x, hx⟩
  simp only [mrun, List.mem_flatMap] at hx ⊢
  rcases hx with ⟨⟨z, s1⟩, hz, hx2⟩
  rcases ha k s s1 ⟨z, hz⟩ with ⟨y1, hy1⟩
  rcases hb z s1 s' ⟨x, hx2⟩ with ⟨y2, hy2⟩
  rcases mrun_rest_indep y1 hy2 with ⟨y3, hy3⟩
  exact ⟨y3, ⟨(y1, s1), hy1, hy3⟩⟩

theorem subM_opt {a a' : Re} (ha : SubM a a') : SubM (.opt a) (.opt a') := by
  intro k s s' ⟨x, hx⟩
  simp only [mrun, List.mem_append, List.mem_singleton, Prod.mk.injEq] at hx ⊢
  rcases hx with hx | hx
  · rcases ha k s s' ⟨x, hx⟩ with ⟨y, hy⟩
    exact ⟨y, Or.inl hy⟩
  · exact ⟨k, Or.inr ⟨rfl, hx.2⟩⟩

theorem subM_group {t : GTag} {a a' : Re} (ha : SubM a a') :
    SubM (.group t a) (.group t a') := by
  intro k s s' ⟨x, hx⟩
  simp only [mrun, List.mem_map, Prod.mk.injEq] at hx ⊢
  rcases hx with ⟨⟨z, s1⟩, hz, _, he2⟩
  rcases ha k s s1 ⟨z, hz⟩ with ⟨y1, hy1⟩
  exact ⟨Caps.set y1 t (String.mk (s.take (s.length - s1.length))),
    ⟨(y1, s1), hy1, rfl, he2⟩⟩

theorem subM_dashSep : SubM (dashSep true) (dashSep false) := by
  simp only [dashSep, if_true, Bool.false_eq_true, if_false]
  exact subM_cat (subM_refl _) (subM_char_opt ' ')

theorem subM_commaSep : SubM (commaSep true) (commaSep false) := by
  simp only [commaSep, if_true, Bool.false_eq_true, if_false]
  exact subM_cat (subM_char_opt ',') (subM_char_opt ' ')

theorem subM_GROUP_BODY : SubM (GROUP_BODY true) (GROUP_BODY false) := by
  unfold GROUP_BODY
  exact subM_cat (subM_refl _)
    (subM_cat subM_dashSep (subM_refl _))

theorem subM_TEAM : SubM TEAM_RE_STRICT TEAM_RE_LOOSE := by
  unfold TEAM_RE_STRICT TEAM_RE_LOOSE
  exact subM_cat (subM_refl _) subM_GROUP_BODY

theorem subM_PLAYER : SubM PLAYER_RE_STRICT PLAYER_RE_LOOSE := by
  unfold PLAYER_RE_STRICT PLAYER_RE_LOOSE PLAYER_BODY
  refine subM_cat (subM_refl _) (subM_cat (subM_refl _) (subM_cat (subM_refl _)
    (subM_cat (subM_refl _) (subM_cat (subM_refl _) (subM_cat (subM_refl _)
      (subM_cat (subM_refl _) (subM_cat subM_commaSep
        (subM_cat (subM_refl _) (subM_cat (subM_refl _)
          (subM_cat subM_commaSep (subM_refl _)))))))))))

/- ### fullmatch characterizations -/

theorem fullmatchL_isSome_iff {r : Re} {s : List Char} :
    (fullmatchL r s).isSome = true ↔ ∃ y, (y, ([] : List Char)) ∈ mrun r {} s := by
  unfold fullmatchL
  cases hh : ((mrun r {} s).filter (fun x => x.2.isEmpty)).head? with
  | none =>
    simp only [Option.map_none', Option.isSome_none, Bool.false_eq_true, false_iff]
    intro ⟨y, hy⟩
    have hm : (y, ([] : List Char)) ∈ (mrun r {} s).filter (fun x => x.2.isEmpty) :=
      List.mem_filter.mpr ⟨hy, by simp⟩
    rw [List.head?_eq_none_iff] at hh
    rw [hh] at hm
    simp at hm
  | some x =>
    simp only [Option.map_some', Option.isSome_some, true_iff]
    obtain ⟨y, t⟩ := x
    have hm : (y, t) ∈ (mrun r {} s).filter (fun x => x.2.isEmpty) :=
      List.mem_of_mem_head? (Option.mem_def.mpr hh)
    rw [List.mem_filter] at hm
    have ht : t = [] := by simpa using hm.2
    exact ⟨y, ht ▸ hm.1⟩

theorem fullmatchL_eq_some_mem {r : Re} {s : List Char} {k : Caps}
    (h : fullmatchL r s = some k) : (k, ([] : List Char)) ∈ mrun r {} s := by
  unfold fullmatchL at h
  rw [Option.map_eq_some'] at h
  rcases h with ⟨⟨y, t⟩, hy, hk⟩
  have hm : (y, t) ∈ (mrun r {} s).filter (fun x => x.2.isEmpty) :=
    List.mem_of_mem_head? (Option.mem_def.mpr hy)
  rw [List.mem_filter] at hm
  have ht : t = [] := by simpa using hm.2
  have hyk : y = k := hk
  subst hyk
  exact ht ▸ hm.1

/-- Acceptance transfers along pattern refinement. -/
theorem fullmatch_isSome_mono {r r' : Re} (h : SubM r r') {s : String}
    (hs : (fullmatch r s).isSome = true) : (fullmatch r' s).isSome = true := by
  unfold fullmatch at hs ⊢
  rw [fullmatchL_isSome_iff] at hs ⊢
  rcases hs with ⟨y, hy⟩
  exact h {} s.data [] ⟨y, hy⟩

/- ### Indentation discriminates the three line shapes -/

/-- The group body rejects any input that starts with a tab: the optional
name cannot consume the tab and the mandatory dash is not a tab. -/
theorem mrun_GROUP_BODY_tab (strict : Bool) (k : Caps) (rest : List Char) :
    mrun (GROUP_BODY strict) k ('\t' :: rest) = [] := by
  cases strict <;> rfl

/-- The team pattern rejects any input that starts with two tabs. -/
theorem mrun_TEAM_tabtab (strict : Bool) (k : Caps) (rest : List Char) :
    mrun (.cat (.char '\t') (GROUP_BODY strict)) k ('\t' :: '\t' :: rest) = [] := by
  cases strict <;> rfl

/-- A pattern starting with a literal character only accepts inputs
starting with that character. -/
theorem fullmatchL_cat_char_shape {c : Char} {b : Re} {s : List Char}
    (h : (fullmatchL (.cat (.char c) b) s).isSome = true) :
    ∃ rest, s = c :: rest := by
  cases s with
  | nil => simp [fullmatchL, mrun] at h
  | cons a t =>
    by_cases hac : a = c
    · exact ⟨t, by rw [hac]⟩
    · exfalso
      simp [fullmatchL, mrun, hac] at h

/-- A line matched by either team pattern starts with a tab. -/
theorem team_match_shape {m : Bool} {line : String}
    (h : (fullmatch (teamRe m) line).isSome = true) :
    ∃ rest, line.data = '\t' :: rest := by
  cases m <;>
    exact fullmatchL_cat_char_shape (by
      simpa [fullmatch, teamRe, TEAM_RE_STRICT, TEAM_RE_LOOSE] using h)

/-- A line matched by either player pattern starts with two tabs. -/
theorem player_match_shape {m : Bool} {line : String}
    (h : (fullmatch (playerRe m) line).isSome = true) :
    ∃ rest, line.data = '\t' :: '\t' :: rest := by
  have h' : (fullmatchL (PLAYER_BODY m) line.data).isSome = true := by
    cases m <;>
      simpa [fullmatch, playerRe, PLAYER_RE_STRICT, PLAYER_RE_LOOSE] using h
  rcases fullmatchL_cat_char_shape (by
    simpa [PLAYER_BODY] using h') with ⟨rest, hrest⟩
  rcases rest with _ | ⟨a, t⟩
  · exfalso
    rw [hrest] at h'
    cases m <;> simp [fullmatchL, PLAYER_BODY, mrun] at h'
  · by_cases ha : a = '\t'
    · exact ⟨t, by rw [hrest, ha]⟩
    · exfalso
      rw [hrest] at h'
      unfold PLAYER_BODY fullmatchL at h'
      simp only [mrun, List.flatMap_nil, List.flatMap_cons, List.flatMap_append] at h'
      simp [mrun, ha] at h'

/-- Neither group pattern matches a line starting with a tab. -/
theorem fullmatch_group_none_of_tab {m : Bool} {line : String} {rest : List Char}
    (h : line.data = '\t' :: rest) : fullmatch (groupRe m) line = none := by
  unfold fullmatch fullmatchL
  rw [h]
  cases m <;>
    simp [groupRe, GROUP_RE_STRICT, GROUP_RE_LOOSE, mrun_GROUP_BODY_tab]

/-- Neither team pattern matches a line starting with two tabs. -/
theorem fullmatch_team_none_of_tabtab {m : Bool} {line : String} {rest : List Char}
    (h : line.data = '\t' :: '\t' :: rest) : fullmatch (teamRe m) line = none := by
  unfold fullmatch fullmatchL
  rw [h]
  cases m <;>
    simp [teamRe, TEAM_RE_STRICT, TEAM_RE_LOOSE, mrun_TEAM_tabtab]

/- ### Computation and inversion lemmas for DtbReader.read -/

theorem read_of_group_some {st : DtbReader} {line : String} {m : Bool} {k : Caps}
    (hG : fullmatch (groupRe m) line = some k) :
    st.read line m = (.ok (.group ⟨k.name, k.note⟩), ⟨some ⟨k.name, k.note⟩, none⟩) := by
  unfold DtbReader.read
  rw [hG]

theorem read_of_team_some {st : DtbReader} {line : String} {m : Bool} {k : Caps}
    (hG : fullmatch (groupRe m) line = none)
    (hT : fullmatch (teamRe m) line = some k) :
    st.read line m =
      match st.current_group with
      | none => (.error (.TeamWithoutGroup line), st)
      | some g => (.ok (.team ⟨k.name, k.note, g⟩),
          ⟨st.current_group, some ⟨k.name, k.note, g⟩⟩) := by
  unfold DtbReader.read
  rw [hG, hT]

theorem read_of_player_some {st : DtbReader} {line : String} {m : Bool} {k : Caps}
    (hG : fullmatch (groupRe m) line = none)
    (hT : fullmatch (teamRe m) line = none)
    (hP : fullmatch (playerRe m) line = some k) :
    st.read line m =
      match st.current_team with
      | none => (.error (.PlayerWithoutTeam line), st)
      | some t => (.ok (.player ⟨k.registration_number, k.name, k.surname,
          k.date_of_birth, k.note, t⟩), st) := by
  unfold DtbReader.read
  rw [hG, hT, hP]

theorem read_of_all_none {st : DtbReader} {line : String} {m : Bool}
    (hG : fullmatch (groupRe m) line = none)
    (hT : fullmatch (teamRe m) line = none)
    (hP : fullmatch (playerRe m) line = none) :
    st.read line m = (.error (.UnknownLineType line), st) := by
  unfold DtbReader.read
  rw [hG, hT, hP]

/-- Inversion: a successful group read determines the new reader state. -/
theorem read_ok_group_inv {st : DtbReader} {line : String} {m : Bool} {g : Group}
    {st' : DtbReader} (h : st.read line m = (.ok (.group g), st')) :
    (fullmatch (groupRe m) line).isSome = true ∧ st' = ⟨some g, none⟩ := by
  cases hG : fullmatch (groupRe m) line with
  | some k =>
    rw [read_of_group_some hG] at h
    simp only [Prod.mk.injEq, Except.ok.injEq, Entity.group.injEq] at h
    exact ⟨rfl, by rw [← h.2, ← h.1]⟩
  | none =>
    exfalso
    cases hT : fullmatch (teamRe m) line with
    | some k =>
      rw [read_of_team_some hG hT] at h
      cases hg : st.current_group <;> rw [hg] at h <;> simp at h
    | none =>
      cases hP : fullmatch (playerRe m) line with
      | some k =>
        rw [read_of_player_some hG hT hP] at h
        cases ht : st.current_team <;> rw [ht] at h <;> simp at h
      | none =>
        rw [read_of_all_none hG hT hP] at h
        simp at h

/-- Inversion of a successful team read. -/
theorem read_ok_team_inv {st : DtbReader} {line : String} {m : Bool} {t : Team}
    {st' : DtbReader} (h : st.read line m = (.ok (.team t), st')) :
    (fullmatch (teamRe m) line).isSome = true ∧ st.current_group = some t.group := by
  cases hG : fullmatch (groupRe m) line with
  | some k =>
    rw [read_of_group_some hG] at h
    simp at h
  | none =>
    cases hT : fullmatch (teamRe m) line with
    | some k =>
      rw [read_of_team_some hG hT] at h
      cases hg : st.current_group with
      | none => rw [hg] at h; simp at h
      | some g =>
        rw [hg] at h
        simp only [Prod.mk.injEq, Except.ok.injEq, Entity.team.injEq] at h
        exact ⟨rfl, by rw [← h.1]⟩
    | none =>
      exfalso
      cases hP : fullmatch (playerRe m) line with
      | some k =>
        rw [read_of_player_some hG hT hP] at h
        cases ht : st.current_team <;> rw [ht] at h <;> simp at h
      | none =>
        rw [read_of_all_none hG hT hP] at h
        simp at h

/-- Inversion of a successful player read. -/
theorem read_ok_player_inv {st : DtbReader} {line : String} {m : Bool} {p : Player}
    {st' : DtbReader} (h : st.read line m = (.ok (.player p), st')) :
    (fullmatch (playerRe m) line).isSome = true ∧
      st.current_team = some p.team ∧ st' = st := by
  cases hG : fullmatch (groupRe m) line with
  | some k =>
    rw [read_of_group_some hG] at h
    simp at h
  | none =>
    cases hT : fullmatch (teamRe m) line with
    | some k =>
      rw [read_of_team_some hG hT] at h
      cases hg : st.current_group <;> rw [hg] at h <;> simp at h
    | none =>
      cases hP : fullmatch (playerRe m) line with
      | some k =>
        rw [read_of_player_some hG hT hP] at h
        cases ht : st.current_team with
        | none => rw [ht] at h; simp at h
        | some t0 =>
          rw [ht] at h
          simp only [Prod.mk.injEq, Except.ok.injEq, Entity.player.injEq] at h
          refine ⟨rfl, ?_, h.2.symm⟩
          rw [← h.1]
      | none =>
        rw [read_of_all_none hG hT hP] at h
        simp at h

/- ### Capture classes: what characters a named group can capture -/

theorem Caps.get_set (k : Caps) (t t' : GTag) (v : String) :
    (k.set t v).get t' = if t' = t then some v else k.get t' := by
  cases t <;> cases t' <;> simp [Caps.set, Caps.get]

/-- Characters consumed by a pattern all satisfy any `BodySat` bound. -/
theorem mrun_consumed_all {q : Char → Bool} {r : Re} :
    ∀ {k x : Caps} {s s' : List Char}, BodySat q r → (x, s') ∈ mrun r k s →
      ∃ pre, s = pre ++ s' ∧ pre.all q = true := by
  induction r with
  | char c =>
    intro k x s s' hb h
    cases s with
    | nil => simp [mrun] at h
    | cons a t =>
      by_cases ha : a = c
      · simp only [mrun, ha, if_true, List.mem_singleton, Prod.mk.injEq] at h
        refine ⟨[a], by simp [h.2], ?_⟩
        simp only [List.all_cons, List.all_nil, Bool.and_true]
        rw [ha]
        exact hb
      · simp [mrun, ha] at h
  | star p =>
    intro k x s s' hb h
    simp only [mrun, List.mem_map, Prod.mk.injEq] at h
    rcases h with ⟨a, ha, _, he2⟩
    rcases starRests_decomp p s a ha with ⟨pre, hpre, hall⟩
    exact ⟨pre, he2 ▸ hpre, by
      rw [List.all_eq_true] at hall ⊢
      exact fun c hc => hb c (hall c hc)⟩
  | plus p =>
    intro k x s s' hb h
    cases s with
    | nil => simp [mrun] at h
    | cons a t =>
      by_cases hp : p a = true
      · simp only [mrun, hp, if_true, List.mem_map, Prod.mk.injEq] at h
        rcases h with ⟨b, hbm, _, he2⟩
        rcases starRests_decomp p t b hbm with ⟨pre, hpre, hall⟩
        refine ⟨a :: pre, by simp [he2 ▸ hpre], ?_⟩
        rw [List.all_cons, hb a hp, Bool.true_and]
        rw [List.all_eq_true] at hall ⊢
        exact fun c hc => hb c (hall c hc)
      · simp [mrun, hp] at h
  | cat a b iha ihb =>
    intro k x s s' hb h
    simp only [mrun, List.mem_flatMap] at h
    rcases h with ⟨⟨z, s1⟩, hz, hx⟩
    rcases iha hb.1 hz with ⟨pre1, hpre1, hall1⟩
    rcases ihb hb.2 hx with ⟨pre2, hpre2, hall2⟩
    have hpre2' : s1 = pre2 ++ s' := hpre2
    exact ⟨pre1 ++ pre2, by rw [hpre1, hpre2', List.append_assoc],
      by simp [List.all_append, hall1, hall2]⟩
  | opt a iha =>
    intro k x s s' hb h
    simp only [mrun, List.mem_append, List.mem_singleton, Prod.mk.injEq] at h
    rcases h with h | h
    · exact iha hb h
    · exact ⟨[], by simp [h.2], by simp⟩
  | group t a iha =>
    intro k x s s' hb h
    simp only [mrun, List.mem_map, Prod.mk.injEq] at h
    rcases h with ⟨⟨z, s1⟩, hz, _, he2⟩
    exact he2 ▸ iha hb hz

/-- The prefix consumed before suffix `s'` of `s = pre ++ s'` is recovered
by the take used in the capture rule. -/
theorem take_consumed {pre s' : List Char} :
    (pre ++ s').take ((pre ++ s').length - s'.length) = pre := by
  rw [List.length_append, Nat.add_sub_cancel]
  exact List.take_left pre s'

/-- Capture classification is preserved by matching a pattern whose
groups satisfy `GroupsSat`. -/
theorem mrun_capsSat {P : GTag → Char → Bool} {r : Re} :
    ∀ {k x : Caps} {s s' : List Char}, GroupsSat P r → (x, s') ∈ mrun r k s →
      CapsSat P k → CapsSat P x := by
  induction r with
  | char c =>
    intro k x s s' _ h hk
    cases s with
    | nil => simp [mrun] at h
    | cons a t =>
      by_cases ha : a = c
      · simp only [mrun, ha, if_true, List.mem_singleton, Prod.mk.injEq] at h
        exact h.1 ▸ hk
      · simp [mrun, ha] at h
  | star p =>
    intro k x s s' _ h hk
    simp only [mrun, List.mem_map, Prod.mk.injEq] at h
    rcases h with ⟨a, _, he1, _⟩
    exact he1 ▸ hk
  | plus p =>
    intro k x s s' _ h hk
    cases s with
    | nil => simp [mrun] at h
    | cons a t =>
      by_cases hp : p a = true
      · simp only [mrun, hp, if_true, List.mem_map, Prod.mk.injEq] at h
        rcases h with ⟨b, _, he1, _⟩
        exact he1 ▸ hk
      · simp [mrun, hp] at h
  | cat a b iha ihb =>
    intro k x s s' hg h hk
    simp only [mrun, List.mem_flatMap] at h
    rcases h with ⟨⟨z, s1⟩, hz, hx⟩
    exact ihb hg.2 hx (iha hg.1 hz hk)
  | opt a iha =>
    intro k x s s' hg h hk
    simp only [mrun, List.mem_append, List.mem_singleton, Prod.mk.injEq] at h
    rcases h with h | h
    · exact iha hg h hk
    · exact h.1 ▸ hk
  | group t a iha =>
    intro k x s s' hg h hk
    simp only [mrun, List.mem_map, Prod.mk.injEq] at h
    rcases h with ⟨⟨z, s1⟩, hz, he1, _⟩
    have hz' : CapsSat P z := iha hg.2 hz hk
    rcases mrun_consumed_all hg.1 hz with ⟨pre, hpre, hall⟩
    intro t' v hv
    rw [← he1, Caps.get_set] at hv
    by_cases ht' : t' = t
    · rw [if_pos ht'] at hv
      have hveq : v = String.mk (s.take (s.length - s1.length)) :=
        (Option.some.injEq _ _ ▸ hv).symm
      rw [hveq, hpre, take_consumed]
      simpa [ht'] using hall
    · rw [if_neg ht'] at hv
      exact hz' t' v hv

/-- The player patterns classify their captures by `playerFieldClass`. -/
theorem groupsSat_PLAYER (m : Bool) : GroupsSat playerFieldClass (PLAYER_BODY m) := by
  have hcomma : GroupsSat playerFieldClass (commaSep m) := by
    cases m <;> simp [commaSep, GroupsSat]
  refine ⟨trivial, trivial, ?_⟩
  refine ⟨⟨⟨fun c hc => hc, trivial⟩, trivial⟩, ?_⟩
  refine ⟨⟨trivial, trivial⟩, ?_⟩
  refine ⟨⟨fun c hc => hc, trivial⟩, ?_⟩
  refine ⟨trivial, ?_⟩
  refine ⟨⟨fun c _ => rfl, trivial⟩, ?_⟩
  refine ⟨hcomma, ?_⟩
  refine ⟨⟨fun c hc => hc, trivial⟩, ?_⟩
  refine ⟨trivial, ?_⟩
  refine ⟨hcomma, ?_⟩
  exact ⟨⟨fun c _ => rfl, trivial⟩, trivial⟩

/-- The empty capture state satisfies any classification. -/
theorem capsSat_empty (P : GTag → Char → Bool) : CapsSat P {} := by
  intro t v hv
  cases t <;> simp [Caps.get] at hv

/- ### Structure of the conversion loop -/

/-- The accumulator only prefixes the rows the loop produces. -/
theorem convertLoop_acc :
    ∀ (lines : List String) (st : DtbReader) (m : Bool) (acc : List (List String)),
      convertLoop st lines m acc =
        (acc ++ (convertLoop st lines m []).1, (convertLoop st lines m []).2) := by
  intro lines
  induction lines with
  | nil => intro st m acc; simp [convertLoop]
  | cons l rest ih =>
    intro st m acc
    unfold convertLoop
    cases hr : st.read l m with
    | mk res r =>
      cases res with
      | ok e =>
        dsimp only
        rw [ih r m (acc ++ [renderRow e.to_list]), ih r m ([] ++ [renderRow e.to_list])]
        simp
      | error err => simp

/-- A conversion that raises no error writes one data row per line. -/
theorem convertLoop_none_length :
    ∀ (lines : List String) (st : DtbReader) (m : Bool),
      (convertLoop st lines m []).2 = none →
      (convertLoop st lines m []).1.length = lines.length := by
  intro lines
  induction lines with
  | nil => intro st m _; simp [convertLoop]
  | cons l rest ih =>
    intro st m h
    unfold convertLoop at h ⊢
    cases hr : st.read l m with
    | mk res r =>
      rw [hr] at h
      cases res with
      | ok e =>
        dsimp only at h
        change (convertLoop r rest m ([] ++ [renderRow e.to_list])).1.length =
          (l :: rest).length
        rw [convertLoop_acc rest r m ([] ++ [renderRow e.to_list])] at h ⊢
        simp only [List.nil_append, List.length_append, List.length_singleton,
          List.length_cons] at h ⊢
        rw [ih r m h]
        exact Nat.add_comm 1 rest.length
      | error err => simp at h

theorem convertLoop_cons_ok {st r : DtbReader} {l : String} {m : Bool} {e : Entity}
    (rest : List String) (hr : st.read l m = (.ok e, r)) :
    convertLoop st (l :: rest) m [] =
      (renderRow e.to_list :: (convertLoop r rest m []).1,
        (convertLoop r rest m []).2) := by
  conv_lhs => rw [convertLoop]
  rw [hr]
  dsimp only
  rw [convertLoop_acc rest r m ([] ++ [renderRow e.to_list])]
  simp only [List.nil_append, List.singleton_append]

theorem convertLoop_cons_error {st r : DtbReader} {l : String} {m : Bool}
    {err : InvalidDtbFileError} (rest : List String)
    (hr : st.read l m = (.error err, r)) :
    convertLoop st (l :: rest) m [] = ([], some err) := by
  unfold convertLoop
  rw [hr]

/-- A failing conversion is the successful conversion of the longest good
prefix: the failing line contributes its error but no row, and nothing
after it is processed. -/
theorem convertLoop_fail_decomp :
    ∀ (lines : List String) (st : DtbReader) (m : Bool) (err : InvalidDtbFileError),
      (convertLoop st lines m []).2 = some err →
      ∃ pre fl suf, lines = pre ++ fl :: suf ∧
        (convertLoop st pre m []).2 = none ∧
        (convertLoop st lines m []).1 = (convertLoop st pre m []).1 ∧
        (convertLoop st (pre ++ [fl]) m []).1 = (convertLoop st pre m []).1 ∧
        (convertLoop st (pre ++ [fl]) m []).2 = some err := by
  intro lines
  induction lines with
  | nil => intro st m err h; simp [convertLoop] at h
  | cons l rest ih =>
    intro st m err h
    cases hr : st.read l m with
    | mk res r =>
      cases res with
      | ok e =>
        rw [convertLoop_cons_ok rest hr] at h
        have h' : (convertLoop r rest m []).2 = some err := h
        rcases ih r m err h' with ⟨pre, fl, suf, hsplit, hnone, heq1, heq2, herr2⟩
        refine ⟨l :: pre, fl, suf, by rw [List.cons_append, hsplit], ?_, ?_, ?_, ?_⟩
        · rw [convertLoop_cons_ok pre hr]
          exact hnone
        · rw [convertLoop_cons_ok rest hr, convertLoop_cons_ok pre hr]
          show renderRow e.to_list :: (convertLoop r rest m []).1 =
            renderRow e.to_list :: (convertLoop r pre m []).1
          rw [heq1]
        · rw [List.cons_append, convertLoop_cons_ok (pre ++ [fl]) hr,
            convertLoop_cons_ok pre hr]
          show renderRow e.to_list :: (convertLoop r (pre ++ [fl]) m []).1 =
            renderRow e.to_list :: (convertLoop r pre m []).1
          rw [heq2]
        · rw [List.cons_append, convertLoop_cons_ok (pre ++ [fl]) hr]
          exact herr2
      | error e =>
        rw [convertLoop_cons_error rest hr] at h
        have herr : e = err := by simpa using h
        subst herr
        refine ⟨[], l, rest, rfl, by simp [convertLoop], ?_, ?_, ?_⟩
        · rw [convertLoop_cons_error rest hr]
          simp [convertLoop]
        · rw [show ([] : List String) ++ [l] = [l] by simp,
            convertLoop_cons_error ([] : List String) hr]
          simp [convertLoop]
        · rw [show ([] : List String) ++ [l] = [l] by simp,
            convertLoop_cons_error ([] : List String) hr]

/-- `convert` is the header row followed by the loop's rows. -/
theorem convert_eq (lines : List String) (m : Bool) :
    ConverterCsv.convert lines m =
      (headerRow :: (convertLoop DtbReader.init lines m []).1,
        (convertLoop DtbReader.init lines m []).2) := by
  unfold ConverterCsv.convert
  rw [convertLoop_acc lines DtbReader.init m [headerRow]]
  simp

/-- Inversion of a TeamWithoutGroup failure. -/
theorem read_TWG_inv {st : DtbReader} {line e : String} {m : Bool}
    (h : (st.read line m).1 = .error (.TeamWithoutGroup e)) :
    (fullmatch (teamRe m) line).isSome = true ∧ st.current_group = none := by
  cases hG : fullmatch (groupRe m) line with
  | some k => rw [read_of_group_some hG] at h; simp at h
  | none =>
    cases hT : fullmatch (teamRe m) line with
    | some k =>
      rw [read_of_team_some hG hT] at h
      cases hg : st.current_group with
      | none => exact ⟨rfl, rfl⟩
      | some g => rw [hg] at h; simp at h
    | none =>
      exfalso
      cases hP : fullmatch (playerRe m) line with
      | some k =>
        rw [read_of_player_some hG hT hP] at h
        cases ht : st.current_team <;> rw [ht] at h <;> simp at h
      | none =>
        rw [read_of_all_none hG hT hP] at h
        simp at h

/-- Inversion of a PlayerWithoutTeam failure. -/
theorem read_PWT_inv {st : DtbReader} {line e : String} {m : Bool}
    (h : (st.read line m).1 = .error (.PlayerWithoutTeam e)) :
    (fullmatch (playerRe m) line).isSome = true ∧ st.current_team = none := by
  cases hG : fullmatch (groupRe m) line with
  | some k => rw [read_of_group_some hG] at h; simp at h
  | none =>
    cases hT : fullmatch (teamRe m) line with
    | some k =>
      exfalso
      rw [read_of_team_some hG hT] at h
      cases hg : st.current_group <;> rw [hg] at h <;> simp at h
    | none =>
      cases hP : fullmatch (playerRe m) line with
      | some k =>
        rw [read_of_player_some hG hT hP] at h
        cases ht : st.current_team with
        | none => exact ⟨rfl, rfl⟩
        | some t => rw [ht] at h; simp at h
      | none =>
        exfalso
        rw [read_of_all_none hG hT hP] at h
        simp at h

/-- One `read` call, raising or not, preserves the ancestry invariant. -/
theorem stepRead_preserves (st : DtbReader) (lm : String × Bool) :
    teamHasGroup st → teamHasGroup (stepRead st lm) := by
  intro hst
  obtain ⟨l, m⟩ := lm
  unfold stepRead
  cases hG : fullmatch (groupRe m) l with
  | some k =>
    rw [read_of_group_some hG]
    intro h
    simp at h
  | none =>
    cases hT : fullmatch (teamRe m) l with
    | some k =>
      rw [read_of_team_some hG hT]
      cases hg : st.current_group with
      | none => exact hst
      | some g =>
        intro _
        rfl
    | none =>
      cases hP : fullmatch (playerRe m) l with
      | some k =>
        rw [read_of_player_some hG hT hP]
        cases ht : st.current_team with
        | none => exact hst
        | some t => exact hst
      | none =>
        rw [read_of_all_none hG hT hP]
        exact hst

/- ### Claim theorems -/

/-- C1: in every reader state and tolerance mode, a Team-shaped line with
`current_group` unset raises TeamWithoutGroup; a Player-shaped line with
`current_team` unset raises PlayerWithoutTeam; and since a Group read
clears `current_team`, a Player-shaped line read immediately after a
successful Group read raises PlayerWithoutTeam. -/
theorem C1_structural_errors (st : DtbReader) (line line₂ : String) (m : Bool) :
    ((fullmatch (teamRe m) line).isSome = true → st.current_group = none →
      (st.read line m).1 = .error (.TeamWithoutGroup line)) ∧
    ((fullmatch (playerRe m) line).isSome = true → st.current_team = none →
      (st.read line m).1 = .error (.PlayerWithoutTeam line)) ∧
    (∀ (g : Group) (st' : DtbReader),
      st.read line m = (.ok (.group g), st') →
      (fullmatch (playerRe m) line₂).isSome = true →
      (st'.read line₂ m).1 = .error (.PlayerWithoutTeam line₂)) := by
  refine ⟨?_, ?_, ?_⟩
  · intro hT hg
    rcases team_match_shape hT with ⟨rest, hrest⟩
    rcases Option.isSome_iff_exists.mp hT with ⟨k, hk⟩
    rw [read_of_team_some (fullmatch_group_none_of_tab hrest) hk, hg]
  · intro hP ht
    rcases player_match_shape hP with ⟨rest, hrest⟩
    rcases Option.isSome_iff_exists.mp hP with ⟨k, hk⟩
    rw [read_of_player_some (fullmatch_group_none_of_tab hrest)
      (fullmatch_team_none_of_tabtab hrest) hk, ht]
  · intro g st' hread hP
    rcases read_ok_group_inv hread with ⟨_, hst'⟩
    rcases player_match_shape hP with ⟨rest, hrest⟩
    rcases Option.isSome_iff_exists.mp hP with ⟨k, hk⟩
    rw [read_of_player_some (fullmatch_group_none_of_tab hrest)
      (fullmatch_team_none_of_tabtab hrest) hk, hst']

/-- Witness for C1 at concrete inputs: a Team line on a fresh reader and a
Player line right after a Group read. -/
theorem C1_witness :
    (DtbReader.init.read "\tt - n\n" true).1 =
      .error (.TeamWithoutGroup "\tt - n\n") ∧
    ((⟨some ⟨some "g", some "n"⟩, none⟩ : DtbReader).read
      "\t\t1 - s n, 1.1 , x\n" true).1 =
      .error (.PlayerWithoutTeam "\t\t1 - s n, 1.1 , x\n") := by
  constructor
  · exact (C1_structural_errors DtbReader.init "\tt - n\n" "" true).1 (by decide) rfl
  · exact (C1_structural_errors DtbReader.init "g - n\n"
      "\t\t1 - s n, 1.1 , x\n" true).2.2 ⟨some "g", some "n"⟩
      ⟨some ⟨some "g", some "n"⟩, none⟩ (by rfl) (by decide)

/-- C5: row projection is length-exact and prefix-structured: a Group row
is exactly its two fields, a Team row is its Group's row extended by two
fields (4 total), a Player row is its Team's row extended by five fields
(9 total). -/
theorem C5_row_projection (g : Group) (t : Team) (p : Player) :
    (g.to_list = [g.name, g.note] ∧ g.to_list.length = 2) ∧
    (t.to_list = t.group.to_list ++ [t.name, t.note] ∧ t.to_list.length = 4) ∧
    (p.to_list = p.team.to_list ++ [p.registration_number, p.name, p.surname,
      p.date_of_birth, p.note] ∧ p.to_list.length = 9) := by
  refine ⟨⟨rfl, rfl⟩, ⟨rfl, ?_⟩, ⟨rfl, ?_⟩⟩ <;>
    simp [Player.to_list, Team.to_list, Group.to_list]

/-- C7: with a current team set, reading a Player-classified line returns
the constructed Player and leaves the tracker state unchanged. -/
theorem C7_player_read_frame (st : DtbReader) (line : String) (m : Bool)
    (t : Team) (k : Caps) (ht : st.current_team = some t)
    (hk : fullmatch (playerRe m) line = some k) :
    st.read line m = (.ok (.player ⟨k.registration_number, k.name, k.surname,
      k.date_of_birth, k.note, t⟩), st) := by
  have hP : (fullmatch (playerRe m) line).isSome = true := by
    rw [hk]
    rfl
  rcases player_match_shape hP with ⟨rest, hrest⟩
  rw [read_of_player_some (fullmatch_group_none_of_tab hrest)
    (fullmatch_team_none_of_tabtab hrest) hk, ht]

/-- Witness for C7 at a concrete state and player line. -/
theorem C7_witness :
    ((⟨some ⟨some "g", some "n"⟩, some ⟨some "t", some "u", ⟨some "g", some "n"⟩⟩⟩ :
      DtbReader).read "\t\t1 - s n, 1.1 , x\n" true) =
      (.ok (.player ⟨some "1", some "n", some "s", some "1.1", some "x",
        ⟨some "t", some "u", ⟨some "g", some "n"⟩⟩⟩),
       ⟨some ⟨some "g", some "n"⟩, some ⟨some "t", some "u", ⟨some "g", some "n"⟩⟩⟩) :=
  C7_player_read_frame _ "\t\t1 - s n, 1.1 , x\n" true
    ⟨some "t", some "u", ⟨some "g", some "n"⟩⟩
    ⟨some "n", some "x", some "1", some "s", some "1.1"⟩ rfl (by rfl)

/-- C9: the reader invariant (a set current team implies a set current
group) holds initially, is preserved by every read call (raising or not),
and therefore holds after any sequence of read calls. -/
theorem C9_invariant (st : DtbReader) (lm : String × Bool)
    (lms : List (String × Bool)) :
    (teamHasGroup st → teamHasGroup (stepRead st lm)) ∧
    teamHasGroup (List.foldl stepRead DtbReader.init lms) := by
  constructor
  · exact stepRead_preserves st lm
  · have hall : ∀ (L : List (String × Bool)) (s : DtbReader), teamHasGroup s →
        teamHasGroup (List.foldl stepRead s L) := by
      intro L
      induction L with
      | nil => intro s hs; exact hs
      | cons a L ih =>
        intro s hs
        exact ih _ (stepRead_preserves s a hs)
    refine hall lms DtbReader.init ?_
    intro h
    simp [DtbReader.init] at h

/-- Witness for C9 at a concrete state and line. -/
theorem C9_witness :
    teamHasGroup (stepRead DtbReader.init ("g - n\n", true)) := by
  refine (C9_invariant DtbReader.init ("g - n\n", true) []).1 ?_
  intro h
  simp [DtbReader.init] at h

/-- C10: read is atomic on failure: whenever it raises, the returned
reader state is the state before the call. -/
theorem C10_read_atomic (st : DtbReader) (line : String) (m : Bool)
    (e : InvalidDtbFileError) (st' : DtbReader)
    (h : st.read line m = (.error e, st')) : st' = st := by
  cases hG : fullmatch (groupRe m) line with
  | some k =>
    rw [read_of_group_some hG] at h
    simp at h
  | none =>
    cases hT : fullmatch (teamRe m) line with
    | some k =>
      rw [read_of_team_some hG hT] at h
      cases hg : st.current_group with
      | none =>
        rw [hg] at h
        simp only [Prod.mk.injEq] at h
        exact h.2.symm
      | some g =>
        rw [hg] at h
        simp at h
    | none =>
      cases hP : fullmatch (playerRe m) line with
      | some k =>
        rw [read_of_player_some hG hT hP] at h
        cases ht : st.current_team with
        | none =>
          rw [ht] at h
          simp only [Prod.mk.injEq] at h
          exact h.2.symm
        | some t =>
          rw [ht] at h
          simp at h
      | none =>
        rw [read_of_all_none hG hT hP] at h
        simp only [Prod.mk.injEq] at h
        exact h.2.symm

/-- Witness for C10 at a concrete failing read. -/
theorem C10_witness :
    (⟨some ⟨some "g", none⟩, none⟩ : DtbReader) =
      (⟨some ⟨some "g", none⟩, none⟩ : DtbReader) :=
  C10_read_atomic ⟨some ⟨some "g", none⟩, none⟩ "\t\tjunk\n" true
    (.UnknownLineType "\t\tjunk\n") ⟨some ⟨some "g", none⟩, none⟩ (by rfl)

/-- C2 (amended): loose mode refines strict mode in one direction: every
line strict mode classifies as Group/Team/Player is classified with the
same kind by loose mode (captured values may differ), and every
structural error strict mode raises is raised identically by loose mode.
The converse direction and capture equality fail, see the
counterexample. -/
theorem C2_loose_refines_strict (st : DtbReader) (line : String) :
    ((∃ g st1, st.read line true = (.ok (.group g), st1)) →
      ∃ g' st2, st.read line false = (.ok (.group g'), st2)) ∧
    ((∃ t st1, st.read line true = (.ok (.team t), st1)) →
      ∃ t' st2, st.read line false = (.ok (.team t'), st2)) ∧
    ((∃ p st1, st.read line true = (.ok (.player p), st1)) →
      ∃ p' st2, st.read line false = (.ok (.player p'), st2)) ∧
    ((st.read line true).1 = .error (.TeamWithoutGroup line) →
      (st.read line false).1 = .error (.TeamWithoutGroup line)) ∧
    ((st.read line true).1 = .error (.PlayerWithoutTeam line) →
      (st.read line false).1 = .error (.PlayerWithoutTeam line)) := by
  refine ⟨?_, ?_, ?_, ?_, ?_⟩
  · intro ⟨g, st1, h⟩
    have hG : (fullmatch (groupRe true) line).isSome = true :=
      (read_ok_group_inv h).1
    have hG' : (fullmatch (groupRe false) line).isSome = true :=
      fullmatch_isSome_mono subM_GROUP_BODY hG
    rcases Option.isSome_iff_exists.mp hG' with ⟨k, hk⟩
    exact ⟨⟨k.name, k.note⟩, ⟨some ⟨k.name, k.note⟩, none⟩, read_of_group_some hk⟩
  · intro ⟨t, st1, h⟩
    rcases read_ok_team_inv h with ⟨hT, hg⟩
    rcases team_match_shape hT with ⟨rest, hrest⟩
    have hT' : (fullmatch (teamRe false) line).isSome = true :=
      fullmatch_isSome_mono subM_TEAM hT
    rcases Option.isSome_iff_exists.mp hT' with ⟨k, hk⟩
    refine ⟨⟨k.name, k.note, t.group⟩, ⟨st.current_group, some ⟨k.name, k.note, t.group⟩⟩, ?_⟩
    rw [read_of_team_some (fullmatch_group_none_of_tab hrest) hk, hg]
  · intro ⟨p, st1, h⟩
    rcases read_ok_player_inv h with ⟨hP, ht, _⟩
    rcases player_match_shape hP with ⟨rest, hrest⟩
    have hP' : (fullmatch (playerRe false) line).isSome = true :=
      fullmatch_isSome_mono subM_PLAYER hP
    rcases Option.isSome_iff_exists.mp hP' with ⟨k, hk⟩
    refine ⟨⟨k.registration_number, k.name, k.surname, k.date_of_birth, k.note,
      p.team⟩, st, ?_⟩
    rw [read_of_player_some (fullmatch_group_none_of_tab hrest)
      (fullmatch_team_none_of_tabtab hrest) hk, ht]
  · intro h
    rcases read_TWG_inv h with ⟨hT, hg⟩
    rcases team_match_shape hT with ⟨rest, hrest⟩
    have hT' : (fullmatch (teamRe false) line).isSome = true :=
      fullmatch_isSome_mono subM_TEAM hT
    rcases Option.isSome_iff_exists.mp hT' with ⟨k, hk⟩
    rw [read_of_team_some (fullmatch_group_none_of_tab hrest) hk, hg]
  · intro h
    rcases read_PWT_inv h with ⟨hP, ht⟩
    rcases player_match_shape hP with ⟨rest, hrest⟩
    have hP' : (fullmatch (playerRe false) line).isSome = true :=
      fullmatch_isSome_mono subM_PLAYER hP
    rcases Option.isSome_iff_exists.mp hP' with ⟨k, hk⟩
    rw [read_of_player_some (fullmatch_group_none_of_tab hrest)
      (fullmatch_team_none_of_tabtab hrest) hk, ht]

/-- Counterexample to C2 as stated.  The line `"a - -b\n"` is accepted as
a Group by both modes but with different captured fields (strict:
name `"a"`, note `"-b"`; loose: name `"a -"`, note `"b"`), refuting
"identical captured field values"; and on the line `"\ta -b\n"` with a
fresh reader, strict mode raises UnknownLineType while loose mode raises
TeamWithoutGroup, refuting "structural errors are raised for exactly the
same state/line combinations in both modes". -/
theorem C2_counterexample :
    (DtbReader.init.read "a - -b\n" true).1 =
      .ok (.group ⟨some "a", some "-b"⟩) ∧
    (DtbReader.init.read "a - -b\n" false).1 =
      .ok (.group ⟨some "a -", some "b"⟩) ∧
    Group.mk (some "a") (some "-b") ≠ Group.mk (some "a -") (some "b") ∧
    (DtbReader.init.read "\ta -b\n" true).1 =
      .error (.UnknownLineType "\ta -b\n") ∧
    (DtbReader.init.read "\ta -b\n" false).1 =
      .error (.TeamWithoutGroup "\ta -b\n") := by
  exact ⟨by rfl, by rfl, by decide, by rfl, by rfl⟩

/-- Witness for the amended C2 at a concrete strict structural error. -/
theorem C2_witness :
    (DtbReader.init.read "\tt - n\n" false).1 =
      .error (.TeamWithoutGroup "\tt - n\n") :=
  (C2_loose_refines_strict DtbReader.init "\tt - n\n").2.2.2.1 (by rfl)

/-- C3: contrary to the spec's sink contract, `ConverterCsv.convert`
writes `entity.to_list()` unpadded: the data row of a Group occupies 2
cells (and a Team's 4), not 9 — evaluation of the converter on the
repository's own README example line shows the 2-cell row. -/
theorem C3_rows_not_padded :
    ConverterCsv.convert ["group_name - group_note\n"] true =
      ([headerRow, ["group_name", "group_note"]], none) ∧
    (["group_name", "group_note"] : List String).length = 2 ∧
    headerRow.length = 9 := by
  exact ⟨by rfl, by rfl, by rfl⟩

/-- C4: the strict-mode end-to-end example: the three documented input
lines produce exactly the documented three rows after the header, with
the Player row listing name before surname. -/
theorem C4_end_to_end :
    ConverterCsv.convert
      ["group_name - group_note\n", "\tteam_name - team_note\n",
       "\t\t00001234 - player_surname player_name, 01.01.1900 , player_note\n"]
      true =
    ([headerRow,
      ["group_name", "group_note"],
      ["group_name", "group_note", "team_name", "team_note"],
      ["group_name", "group_note", "team_name", "team_note", "00001234",
       "player_name", "player_surname", "01.01.1900", "player_note"]],
     none) := by
  rfl

/-- C6: convert writes the fixed 9-label header row first regardless of
input, one data row per accepted line when no error occurs, and on the
first read failure stops with exactly the rows of the successful prefix;
in particular a leading `"\tteam - note\n"` line yields the header, zero
data rows and a TeamWithoutGroup error in both modes. -/
theorem C6_convert_contract :
    headerRow.length = 9 ∧
    (∀ (lines : List String) (m : Bool),
      (ConverterCsv.convert lines m).1.head? = some headerRow) ∧
    (∀ (lines : List String) (m : Bool),
      (ConverterCsv.convert lines m).2 = none →
      (ConverterCsv.convert lines m).1.length = lines.length + 1) ∧
    (∀ (lines : List String) (m : Bool) (err : InvalidDtbFileError),
      (ConverterCsv.convert lines m).2 = some err →
      ∃ pre fl suf, lines = pre ++ fl :: suf ∧
        (ConverterCsv.convert pre m).2 = none ∧
        (ConverterCsv.convert lines m).1 = (ConverterCsv.convert pre m).1 ∧
        (ConverterCsv.convert (pre ++ [fl]) m).1 = (ConverterCsv.convert pre m).1 ∧
        (ConverterCsv.convert (pre ++ [fl]) m).2 = some err) ∧
    (∀ m, ConverterCsv.convert ["\tteam - note\n"] m =
      ([headerRow], some (.TeamWithoutGroup "\tteam - note\n"))) := by
  refine ⟨rfl, ?_, ?_, ?_, ?_⟩
  · intro lines m
    rw [convert_eq]
    rfl
  · intro lines m h
    rw [convert_eq] at h ⊢
    simp only [List.length_cons]
    rw [convertLoop_none_length lines DtbReader.init m h]
  · intro lines m err h
    rw [convert_eq] at h
    rcases convertLoop_fail_decomp lines DtbReader.init m err h with
      ⟨pre, fl, suf, hsplit, hnone, heq1, heq2, herr2⟩
    refine ⟨pre, fl, suf, hsplit, ?_, ?_, ?_, ?_⟩
    · rw [convert_eq]
      exact hnone
    · rw [convert_eq, convert_eq]
      simp only [List.cons.injEq, true_and]
      exact heq1
    · rw [convert_eq, convert_eq]
      simp only [List.cons.injEq, true_and]
      exact heq2
    · rw [convert_eq]
      exact herr2
  · intro m
    cases m <;> rfl

/-- Witness for C6: a one-line input that succeeds produces the header
plus one data row. -/
theorem C6_witness :
    (ConverterCsv.convert ["- a\n"] true).1.length = 2 :=
  C6_convert_contract.2.2.1 ["- a\n"] true (by rfl)

/-- C8: in both modes, a line classified as Player captures a
registration_number that is unset or all digits, a date_of_birth that is
unset or digits and dots only, and a surname that is unset or free of
the space and comma separator characters. -/
theorem C8_player_capture_classes (line : String) (m : Bool) (k : Caps)
    (h : fullmatch (playerRe m) line = some k) :
    (∀ v, k.registration_number = some v → v.data.all digitCh = true) ∧
    (∀ v, k.date_of_birth = some v → v.data.all dobCh = true) ∧
    (∀ v, k.surname = some v → v.data.all surnameCh = true) := by
  have hmem : (k, ([] : List Char)) ∈ mrun (playerRe m) {} line.data :=
    fullmatchL_eq_some_mem h
  have hgs : GroupsSat playerFieldClass (playerRe m) := by
    cases m
    · exact groupsSat_PLAYER false
    · exact groupsSat_PLAYER true
  have hsat : CapsSat playerFieldClass k :=
    mrun_capsSat hgs hmem (capsSat_empty playerFieldClass)
  exact ⟨fun v hv => hsat .registration_number v hv,
    fun v hv => hsat .date_of_birth v hv,
    fun v hv => hsat .surname v hv⟩

/-- Witness for C8 at a concrete strict player line. -/
theorem C8_witness : ("00001234" : String).data.all digitCh = true :=
  (C8_player_capture_classes
    "\t\t00001234 - player_surname player_name, 01.01.1900 , player_note\n"
    true
    ⟨some "player_name", some "player_note", some "00001234",
      some "player_surname", some "01.01.1900"⟩
    (by rfl)).1 "00001234" rfl

end Dtb2Csv
